import Mathlib

/-!
Shallow embedding of the aiovantage Host Command client and controller
reconciliation engine, translated from the Python sources of the repository:
`command_client/commands.py`, `command_client/utils.py`,
`command_client/object_interfaces/base.py`, `controllers/base.py` and
`controllers/rgb_loads.py`.

Strings are handled through their underlying character lists; Python dicts
become association lists (first occurrence wins, keys unique in practice);
Python exceptions become `Option`/explicit error constructors.
-/

namespace AV

/-- The double-quote character, bound once so later definitions can branch
on it. -/
def dq : Char := '"'

/-- The ASCII whitespace characters treated as separators by Python regular
expression class matching and by `str.rstrip`. -/
def isPySpace (c : Char) : Bool :=
  c = ' ' || c = '\t' || c = '\n' || c = '\r' || c = '\x0b' || c = '\x0c'

/-- Model of Python `str.rstrip()`: drop trailing whitespace characters. -/
def rstripM (s : String) : String :=
  ⟨(s.data.reverse.dropWhile isPySpace).reverse⟩

/-- Model of Python `str.startswith(p)`. -/
def startsWithM (s p : String) : Bool :=
  p.data.isPrefixOf s.data

/-- Python dict lookup `m.get(k)` over an association list (first occurrence
of a key wins, as dict keys are unique). -/
def assocGet {κ α : Type} [DecidableEq κ] (m : List (κ × α)) (k : κ) : Option α :=
  match m with
  | [] => none
  | (k0, v0) :: rest => if k0 = k then some v0 else assocGet rest k

/-- Python dict assignment `m[k] = v`: replace the first binding of `k`, or
append a new binding when `k` is absent. -/
def assocSet {κ α : Type} [DecidableEq κ] (m : List (κ × α)) (k : κ) (v : α) :
    List (κ × α) :=
  match m with
  | [] => [(k, v)]
  | (k0, v0) :: rest =>
    if k0 = k then (k, v) :: rest else (k0, v0) :: assocSet rest k v

/-- Python `del m[k]`: remove the bindings of `k`. -/
def assocErase {κ α : Type} [DecidableEq κ] (m : List (κ × α)) (k : κ) :
    List (κ × α) :=
  m.filter (fun p => decide (p.1 ≠ k))

/-- Value of a decimal digit string, most significant digit first. -/
def digitsToNat (cs : List Char) : Nat :=
  cs.foldl (fun n c => 10 * n + (c.toNat - 48)) 0

/-- Model of Python `int(s)` restricted to the nonempty digit strings that
occur in protocol error tags and fixed-point results; `none` models the
`ValueError`/`InvalidOperation` raised on anything else. -/
def pyToNatL (cs : List Char) : Option Nat :=
  if cs.isEmpty then none
  else if cs.all Char.isDigit then some (digitsToNat cs) else none

/-- Python `s.split(sep, 1)` unpacked into exactly two names: `some` of the
text before and after the first separator, `none` (an unpacking `ValueError`)
when the separator does not occur. -/
def splitFirstChar (sep : Char) : List Char → Option (List Char × List Char)
  | [] => none
  | c :: cs =>
    if c = sep then some ([], cs)
    else
      match splitFirstChar sep cs with
      | some (a, b) => some (c :: a, b)
      | none => none

/-- Python `s.split(sep)`: split at every occurrence of the separator. -/
def splitAllChar (sep : Char) : List Char → List (List Char)
  | [] => [[]]
  | c :: cs =>
    if c = sep then [] :: splitAllChar sep cs
    else
      match splitAllChar sep cs with
      | [] => [[c]]
      | a :: rest => (c :: a) :: rest

/-- The errors raised by `CommandClient.raw_request`, from
`aiovantage.errors`: `LoginRequiredError`, `LoginFailedError` and the
generic `CommandError`. -/
inductive CommandErr where
  | loginRequired (msg : String)
  | loginFailed (msg : String)
  | commandError (msg : String)
deriving DecidableEq

/-- The error value `CommandClient._parse_command_error` builds from the
numeric code and the human-readable message: code 21 gives
`LoginRequiredError`, 23 gives `LoginFailedError`, anything else the generic
`CommandError` with the code appended to the message. -/
def errorFor (code : Nat) (msg : String) : CommandErr :=
  if code = 21 then .loginRequired msg
  else if code = 23 then .loginFailed msg
  else .commandError (msg ++ " (Error code " ++ Nat.repr code ++ ")")

/-- `CommandClient._parse_command_error`: split the line at the first space
into tag and message, split the tag at colons expecting exactly
`R:ERROR:<code>`, parse the code, and build the typed error. `none` models a
Python `ValueError` escaping the parser on a malformed line. -/
def parse_command_error (message : String) : Option CommandErr :=
  match splitFirstChar ' ' message.data with
  | none => none
  | some (tagData, msgData) =>
    match splitAllChar ':' tagData with
    | [_, _, codeData] =>
      match pyToNatL codeData with
      | none => none
      | some code => some (errorFor code ⟨msgData⟩)
    | _ => none

/-- The unsolicited event-line test of `CommandClient.raw_request`:
`any(response_line.startswith(x) for x in ("S:", "L:", "EL:"))`. -/
def isEventLine (l : String) : Bool :=
  startsWithM l "S:" || startsWithM l "L:" || startsWithM l "EL:"

/-- Outcome of the `raw_request` read loop. -/
inductive ReqResult where
  | ok (lines : List String)
  | err (e : CommandErr)
  | valueError
  | timeout
deriving DecidableEq

/-- The read loop of `CommandClient.raw_request`, applied to the stream of
lines the connection yields (each already terminated, then `rstrip`ped by
the loop). Error lines raise, event lines are skipped, other lines are
buffered, and the first remaining line starting with the reply marker `R:`
ends the loop. An exhausted stream models a read that would block until the
read timeout. -/
def raw_request : List String → ReqResult
  | [] => .timeout
  | l :: rest =>
    let line := rstripM l
    if startsWithM line "R:ERROR" then
      match parse_command_error line with
      | some e => .err e
      | none => .valueError
    else if isEventLine line then raw_request rest
    else if startsWithM line "R:" then .ok [line]
    else
      match raw_request rest with
      | .ok ls => .ok (line :: ls)
      | r => r

/-- Quoted-span matcher for the tokenizer regex alternative
`"([^"]*(?:""[^"]*)*)"`, applied to the characters after an opening quote.
Returns the raw span contents (doubled quotes kept) and the characters after
the closing quote. The doubled-quote branch backtracks exactly like the
greedy regex star: a pair is consumed only when a closing quote can still be
found afterwards. -/
def matchQuoted : List Char → Option (List Char × List Char)
  | [] => none
  | c :: cs =>
    if c = dq then
      match cs with
      | c2 :: cs2 =>
        if c2 = dq then
          match matchQuoted cs2 with
          | some (content, rest) => some (dq :: dq :: content, rest)
          | none => some ([], cs)
        else some ([], cs)
      | [] => some ([], [])
    else
      match matchQuoted cs with
      | some (content, rest) => some (c :: content, rest)
      | none => none

/-- Brace-span matcher for the non-greedy regex alternative `\x7b.*?\x7d`,
applied to the characters after the opening brace: everything up to the
first closing brace, failing on a newline (the dot does not match one) or
end of input. -/
def matchBrace : List Char → Option (List Char × List Char)
  | [] => none
  | c :: cs =>
    if c = '}' then some ([], cs)
    else if c = '\n' then none
    else
      match matchBrace cs with
      | some (inside, rest) => some (c :: inside, rest)
      | none => none

/-- Python `token.replace(chr(34) * 2, chr(34))`: collapse doubled quotes
left to right. -/
def unescapeDQ : List Char → List Char
  | c1 :: c2 :: rest =>
    if c1 = dq ∧ c2 = dq then dq :: unescapeDQ rest
    else c1 :: unescapeDQ (c2 :: rest)
  | l => l

/-- The per-token post-processing of `tokenize_response`: when the matched
token both starts and ends with a quote, strip them and unescape doubled
quotes. -/
def processToken (tok : List Char) : List Char :=
  if tok.head? = some dq ∧ tok.getLast? = some dq then
    unescapeDQ ((tok.drop 1).dropLast)
  else tok

/-- The left-to-right scan of `TOKEN_PATTERN.finditer`: at each non-space
position try the quoted alternative, then the brace alternative, then the
greedy run of non-space characters. The fuel argument bounds the number of
scan steps; each step consumes at least one character, so the input length
always suffices. -/
def scanAux : Nat → List Char → List (List Char)
  | 0, _ => []
  | _, [] => []
  | fuel + 1, c :: cs =>
    if isPySpace c then scanAux fuel cs
    else if c = dq then
      match matchQuoted cs with
      | some (content, rest) => (dq :: content ++ [dq]) :: scanAux fuel rest
      | none =>
        (c :: cs.takeWhile (fun x => !isPySpace x)) ::
          scanAux fuel (cs.dropWhile (fun x => !isPySpace x))
    else if c = '{' then
      match matchBrace cs with
      | some (inside, rest) => ('{' :: inside ++ ['}']) :: scanAux fuel rest
      | none =>
        (c :: cs.takeWhile (fun x => !isPySpace x)) ::
          scanAux fuel (cs.dropWhile (fun x => !isPySpace x))
    else
      (c :: cs.takeWhile (fun x => !isPySpace x)) ::
        scanAux fuel (cs.dropWhile (fun x => !isPySpace x))

/-- `tokenize_response` from `command_client/utils.py`: find all matches of
`TOKEN_PATTERN`, stripping and unescaping quoted tokens. -/
def tokenize_response (s : String) : List String :=
  (scanAux s.data.length s.data).map (fun t => ⟨processToken t⟩)

/-- `fixed_to_decimal` from `object_interfaces/base.py`: delete every dot
and divide by 1000. Python `Decimal` arithmetic on these inputs is exact,
modelled by the rationals; `none` models the `InvalidOperation` raised when
nothing parseable remains. -/
def fixed_to_decimal (value : String) : Option ℚ :=
  (pyToNatL (value.data.filter (fun c => decide (c ≠ '.')))).map
    (fun n => (n : ℚ) / 1000)

/-- A managed `SystemObject`: a stable integer id plus the declared dataclass
fields, modelled as an association list from field name to value in
declaration order (the modification-time field is named `mtime`). -/
structure Obj where
  id : Nat
  attrs : List (String × Int)
deriving DecidableEq, Inhabited

/-- Python `getattr(o, n)`; `none` models the `AttributeError` on an absent
field. -/
def getattrO (o : Obj) (n : String) : Option Int := assocGet o.attrs n

/-- Python `setattr(o, n, v)`. -/
def setattrO (o : Obj) (n : String) (v : Int) : Obj := ⟨o.id, assocSet o.attrs n v⟩

/-- The `VantageEvent` kinds emitted by the controller. -/
inductive EvKind where
  | added
  | updated
  | deleted
deriving DecidableEq

/-- One emitted controller event: kind, object id, and the `attrs_changed`
payload (empty for added/deleted events, whose emit passes no data). -/
structure Ev where
  kind : EvKind
  vid : Nat
  payload : List String
deriving DecidableEq

/-- The changed-field computation of `BaseController.initialize`: every
declared field of the cached object whose value differs on the freshly
fetched object, except the modification-time field `mtime`. -/
def attrsChanged (prev cur : Obj) : List String :=
  (prev.attrs.map Prod.fst).filter
    (fun n => decide (getattrO prev n ≠ getattrO cur n) && decide (n ≠ "mtime"))

/-- Applying the changed fields to the cached object: each `setattr` copies
the fetched value; an absent field on the fetched object is a logged warning
and is skipped. -/
def applyChanged (prev cur : Obj) (names : List String) : Obj :=
  names.foldl (fun o n =>
    match getattrO cur n with
    | some v => setattrO o n v
    | none => o) prev

/-- The mutable state threaded through `BaseController.initialize`: the
id-to-object cache, the ids seen in the current fetch, and the events
emitted so far. -/
structure InitState where
  items : List (Nat × Obj)
  curIds : List Nat
  events : List Ev
deriving DecidableEq

/-- One iteration of the fetch loop of `BaseController.initialize`: a fetched
object with an unknown id is inserted and `OBJECT_ADDED` is emitted; a known
id is compared field by field and, when something other than `mtime` changed,
updated in place with one `OBJECT_UPDATED` carrying the changed-field list.
Every fetched id is recorded in `cur_ids`. The `none` branch of the cache
lookup is unreachable (the id is in `prev_ids`, and entries are never removed
during the loop). -/
def processOne (prevIds : List Nat) (s : InitState) (o : Obj) : InitState :=
  if o.id ∈ prevIds then
    match assocGet s.items o.id with
    | some prev =>
      let c := attrsChanged prev o
      if c = [] then { s with curIds := s.curIds ++ [o.id] }
      else
        { items := assocSet s.items o.id (applyChanged prev o c)
          curIds := s.curIds ++ [o.id]
          events := s.events ++ [⟨.updated, o.id, c⟩] }
    | none => { s with curIds := s.curIds ++ [o.id] }
  else
    { items := assocSet s.items o.id o
      curIds := s.curIds ++ [o.id]
      events := s.events ++ [⟨.added, o.id, []⟩] }

/-- The events one fetched object contributes during the loop, phrased
against the cache as it stood when `initialize` started. -/
def fetchEvents (items0 : List (Nat × Obj)) (prevIds : List Nat) (o : Obj) :
    List Ev :=
  if o.id ∈ prevIds then
    match assocGet items0 o.id with
    | some prev =>
      let c := attrsChanged prev o
      if c = [] then [] else [⟨.updated, o.id, c⟩]
    | none => []
  else [⟨.added, o.id, []⟩]

/-- `BaseController.initialize` (its cache/event core; the state-fetch and
event-stream subscription hooks are no-ops for the cache and the emitted
events): run the fetch loop over the fetched objects, then pop and emit
`OBJECT_DELETED` for every previously known id absent from the fetch. -/
def reconcile (items0 : List (Nat × Obj)) (fetched : List Obj) : InitState :=
  let prevIds := items0.map Prod.fst
  let s := fetched.foldl (processOne prevIds) ⟨items0, [], []⟩
  let toDelete := prevIds.filter (fun k => decide (k ∉ s.curIds))
  { items := toDelete.foldl (fun m k => assocErase m k) s.items
    curIds := s.curIds
    events := s.events ++ toDelete.map (fun k => ⟨.deleted, k, []⟩) }

/-- One iteration of the field loop of `BaseController.update_state`: an
absent field is a logged warning (the `AttributeError` is caught); a present
field is overwritten and recorded in `attrs_changed` only when its value
differs. -/
def applyField (acc : Obj × List String) (kv : String × Int) : Obj × List String :=
  match getattrO acc.1 kv.1 with
  | none => acc
  | some v =>
    if v = kv.2 then acc
    else (setattrO acc.1 kv.1 kv.2, acc.2 ++ [kv.1])

/-- `BaseController.update_state`: silently ignore an unknown id; otherwise
apply the given field values, tracking which actually changed, and emit one
`OBJECT_UPDATED` with the changed-field list when it is nonempty. The cache
entry holds the (possibly mutated in place) object. -/
def update_state (items : List (Nat × Obj)) (vid : Nat)
    (st : List (String × Int)) : List (Nat × Obj) × List Ev :=
  match assocGet items vid with
  | none => (items, [])
  | some obj =>
    let r := st.foldl applyField (obj, [])
    (assocSet items vid r.1,
     if r.2 = [] then [] else [⟨.updated, vid, r.2⟩])

/-- The per-channel response record consumed by
`RGBLoadsController._build_color` (fields as used there: a channel index and
a channel value). -/
structure ColorChannelResponse where
  value : Int
  channel : Int
deriving DecidableEq

/-- `RGBLoadsController._build_color`: drop out-of-range channel indices;
otherwise `setdefault` a zero-filled accumulator for the id, store the
channel value (the outer `none` models the `IndexError` Python raises when
the stored list is shorter than the index), and when the highest channel
arrives return the completed color and discard the accumulator entry. -/
def build_color (m : List (Nat × List Int)) (vid : Nat)
    (resp : ColorChannelResponse) (num_channels : Nat) :
    Option (List (Nat × List Int) × Option (List Int)) :=
  if resp.channel < 0 ∨ (num_channels : Int) ≤ resp.channel then some (m, none)
  else
    let m1 := match assocGet m vid with
      | some _ => m
      | none => assocSet m vid (List.replicate num_channels 0)
    match assocGet m1 vid with
    | none => none
    | some cur =>
      let ch := resp.channel.toNat
      if ch < cur.length then
        let cur' := cur.set ch resp.value
        if resp.channel = (num_channels : Int) - 1 then
          some (assocErase m1 vid, some cur')
        else some (assocSet m1 vid cur', none)
      else none

/-- C8: `tokenize_response` splits a line on whitespace except that
double-quoted spans become one token with the enclosing quotes stripped and
internal doubled quotes unescaped, and brace-delimited spans are kept as one
token verbatim; in particular the three quoted example inputs tokenize as
stated, and the empty string yields the empty sequence. -/
theorem tokenize_response_examples :
    tokenize_response "foo \"bar baz\" \x7b01 02\x7d qux" =
        ["foo", "bar baz", "\x7b01 02\x7d", "qux"]
    ∧ tokenize_response "\"a\"\"b\"" = ["a\"b"]
    ∧ tokenize_response "" = [] := by
  refine ⟨?_, ?_, ?_⟩ <;> rfl

/-- C9: fixed-point decoding maps the input strings "123.000" and "123000"
to the same numeric value, 123. -/
theorem fixed_to_decimal_equiv :
    fixed_to_decimal "123.000" = some 123
    ∧ fixed_to_decimal "123000" = some 123
    ∧ fixed_to_decimal "123.000" = fixed_to_decimal "123000" := by
  refine ⟨?_, ?_, ?_⟩ <;> simp [fixed_to_decimal, pyToNatL, digitsToNat] <;> norm_num

/-- C6 (failing input): assembling colors of different channel counts for
the same id is not safe in the code. A 3-channel update for channel 0 of
object 1 creates the accumulator entry `[10, 0, 0]`; a following 4-channel
update for the in-range channel index 3 of the same object then fails (the
`none`, an `IndexError` on the list store) instead of succeeding as the
claim requires. -/
theorem build_color_mixed_kinds_fails :
    build_color [] 1 ⟨10, 0⟩ 3 = some ([(1, [10, 0, 0])], none)
    ∧ build_color [(1, [10, 0, 0])] 1 ⟨20, 3⟩ 4 = none := by
  exact ⟨rfl, rfl⟩

theorem assocGet_assocSet_self {κ α : Type} [DecidableEq κ] (m : List (κ × α))
    (k : κ) (v : α) : assocGet (assocSet m k v) k = some v := by
  induction m with
  | nil => simp [assocSet, assocGet]
  | cons p rest ih =>
    obtain ⟨k0, v0⟩ := p
    by_cases h : k0 = k <;> simp [assocSet, assocGet, h, ih]

theorem assocGet_assocSet_ne {κ α : Type} [DecidableEq κ] (m : List (κ × α))
    (k k' : κ) (v : α) (h : k' ≠ k) :
    assocGet (assocSet m k v) k' = assocGet m k' := by
  have hk : ¬(k = k') := fun hh => h hh.symm
  induction m with
  | nil => simp [assocSet, assocGet, hk]
  | cons p rest ih =>
    obtain ⟨k0, v0⟩ := p
    by_cases h0 : k0 = k
    · subst h0
      simp [assocSet, assocGet, hk]
    · simp [assocSet, assocGet, h0, ih]

theorem assocGet_assocErase_self {κ α : Type} [DecidableEq κ] (m : List (κ × α))
    (k : κ) : assocGet (assocErase m k) k = none := by
  induction m with
  | nil => simp [assocErase, assocGet]
  | cons p rest ih =>
    obtain ⟨k0, v0⟩ := p
    by_cases h0 : k0 = k <;> simp [assocErase, assocGet, h0, ih] <;>
      simp [assocErase] at ih <;> simp [ih]

theorem assocGet_assocErase_ne {κ α : Type} [DecidableEq κ] (m : List (κ × α))
    (k k' : κ) (h : k' ≠ k) : assocGet (assocErase m k) k' = assocGet m k' := by
  have hk : ¬(k = k') := fun hh => h hh.symm
  induction m with
  | nil => simp [assocErase, assocGet]
  | cons p rest ih =>
    obtain ⟨k0, v0⟩ := p
    by_cases h0 : k0 = k
    · subst h0
      simp [assocErase, assocGet, hk] at ih ⊢
      simpa using ih
    · simp [assocErase, assocGet, h0] at ih ⊢
      simp [ih]

theorem assocGet_isSome_iff {κ α : Type} [DecidableEq κ] (m : List (κ × α))
    (k : κ) : (assocGet m k).isSome ↔ k ∈ m.map Prod.fst := by
  induction m with
  | nil => simp [assocGet]
  | cons p rest ih =>
    obtain ⟨k0, v0⟩ := p
    by_cases h0 : k0 = k
    · subst h0
      simp [assocGet]
    · have h1 : ¬(k = k0) := fun hh => h0 hh.symm
      simp [assocGet, h0, ih, h1]

theorem assocSet_eq_of_get {κ α : Type} [DecidableEq κ] (m : List (κ × α))
    (k : κ) (v : α) (hk : (m.map Prod.fst).Nodup) (h : assocGet m k = some v) :
    assocSet m k v = m := by
  induction m with
  | nil => simp [assocGet] at h
  | cons p rest ih =>
    obtain ⟨k0, v0⟩ := p
    by_cases h0 : k0 = k
    · subst h0
      simp [assocGet] at h
      simp [assocSet, h]
    · simp [assocGet, h0] at h
      simp [List.map, List.nodup_cons] at hk
      simp [assocSet, h0, ih hk.2 h]

set_option maxRecDepth 4096 in
/-- C5: with no existing accumulator entry for an id, 3-channel updates for
channels 0, 1 then 2 yield exactly one completed color, the tuple of the
three delivered values, returned on the final update only, and the
accumulator entry is gone afterwards; a channel-5 update for a 3-channel
color is dropped silently, leaving the map untouched and creating no
entry. -/
theorem build_color_assembles (m : List (Nat × List Int)) (vid : Nat)
    (v0 v1 v2 : Int) (h : assocGet m vid = none) :
    ∃ m1 m2,
      build_color m vid ⟨v0, 0⟩ 3 = some (m1, none)
      ∧ build_color m1 vid ⟨v1, 1⟩ 3 = some (m2, none)
      ∧ build_color m2 vid ⟨v2, 2⟩ 3 = some (assocErase m2 vid, some [v0, v1, v2])
      ∧ assocGet (assocErase m2 vid) vid = none
      ∧ build_color m vid ⟨v0, 5⟩ 3 = some (m, none) := by
  refine ⟨assocSet (assocSet m vid [0, 0, 0]) vid [v0, 0, 0],
          assocSet (assocSet (assocSet m vid [0, 0, 0]) vid [v0, 0, 0]) vid
            [v0, v1, 0], ?_, ?_, ?_, ?_, ?_⟩
  · simp [build_color, h, assocGet_assocSet_self, List.replicate]
  · simp [build_color, assocGet_assocSet_self, List.set]
  · simp [build_color, assocGet_assocSet_self, List.set]
  · exact assocGet_assocErase_self _ _
  · simp [build_color]

theorem build_color_assembles_witness :
    assocGet ([] : List (Nat × List Int)) 1 = none
    ∧ ∃ m1 m2,
      build_color [] 1 ⟨10, 0⟩ 3 = some (m1, none)
      ∧ build_color m1 1 ⟨20, 1⟩ 3 = some (m2, none)
      ∧ build_color m2 1 ⟨30, 2⟩ 3 = some (assocErase m2 1, some [10, 20, 30])
      ∧ assocGet (assocErase m2 1) 1 = none
      ∧ build_color [] 1 ⟨10, 5⟩ 3 = some ([], none) :=
  ⟨rfl, build_color_assembles [] 1 10 20 30 rfl⟩

theorem splitFirstChar_append (sep : Char) (xs ys : List Char)
    (h : ∀ c ∈ xs, c ≠ sep) :
    splitFirstChar sep (xs ++ sep :: ys) = some (xs, ys) := by
  induction xs with
  | nil => simp [splitFirstChar]
  | cons c cs ih =>
    have hc : c ≠ sep := h c (by simp)
    simp [splitFirstChar, hc, ih (fun x hx => h x (by simp [hx]))]

theorem splitAllChar_no_sep (sep : Char) (xs : List Char)
    (h : ∀ c ∈ xs, c ≠ sep) : splitAllChar sep xs = [xs] := by
  induction xs with
  | nil => simp [splitAllChar]
  | cons c cs ih =>
    have hc : c ≠ sep := h c (by simp)
    simp [splitAllChar, hc, ih (fun x hx => h x (by simp [hx]))]

theorem splitAllChar_append (sep : Char) (xs ys : List Char)
    (h : ∀ c ∈ xs, c ≠ sep) :
    splitAllChar sep (xs ++ sep :: ys) = xs :: splitAllChar sep ys := by
  induction xs with
  | nil => simp [splitAllChar]
  | cons c cs ih =>
    have hc : c ≠ sep := h c (by simp)
    have ih' := ih (fun x hx => h x (by simp [hx]))
    simp [splitAllChar, hc, ih']

theorem pyToNatL_digits (cs : List Char) (hne : cs ≠ [])
    (hd : ∀ c ∈ cs, c.isDigit) : pyToNatL cs = some (digitsToNat cs) := by
  have h1 : cs.isEmpty = false := by
    cases cs with
    | nil => exact absurd rfl hne
    | cons a l => rfl
  have h2 : cs.all Char.isDigit = true := by
    rw [List.all_eq_true]
    exact hd
  simp [pyToNatL, h1, h2]

theorem isPrefixOf_append_self (l t : List Char) :
    l.isPrefixOf (l ++ t) = true := by
  induction l with
  | nil => cases t <;> rfl
  | cons c cs ih => simp [List.isPrefixOf, ih]

theorem string_mk_data (s : String) : String.mk s.data = s := by
  cases s
  rfl

theorem splitAll_tag (cs : List Char) (hd : ∀ c ∈ cs, c ≠ ':') :
    splitAllChar ':' ("R:ERROR:".data ++ cs) =
      [['R'], ['E', 'R', 'R', 'O', 'R'], cs] := by
  have h1 : "R:ERROR:".data ++ cs =
      ['R'] ++ ':' :: (['E', 'R', 'R', 'O', 'R'] ++ ':' :: cs) := rfl
  rw [h1, splitAllChar_append ':' ['R'] _ (by decide),
      splitAllChar_append ':' ['E', 'R', 'R', 'O', 'R'] _ (by decide),
      splitAllChar_no_sep ':' cs hd]

theorem parse_command_error_wf (codeStr msg : String)
    (hne : codeStr.data ≠ []) (hd : ∀ c ∈ codeStr.data, c.isDigit) :
    parse_command_error ("R:ERROR:" ++ codeStr ++ " " ++ msg) =
      some (errorFor (digitsToNat codeStr.data) msg) := by
  have hdigit_space : ∀ c ∈ codeStr.data, c ≠ ' ' := by
    intro c hc heq
    have := hd c hc
    rw [heq] at this
    exact absurd this (by decide)
  have hdigit_colon : ∀ c ∈ codeStr.data, c ≠ ':' := by
    intro c hc heq
    have := hd c hc
    rw [heq] at this
    exact absurd this (by decide)
  have hdata : ("R:ERROR:" ++ codeStr ++ " " ++ msg).data =
      ("R:ERROR:".data ++ codeStr.data) ++ ' ' :: msg.data := by
    simp [String.data_append]
  have hA : ∀ c ∈ "R:ERROR:".data, c ≠ ' ' := by decide
  have hnospace : ∀ c ∈ "R:ERROR:".data ++ codeStr.data, c ≠ ' ' := by
    intro c hc
    rcases List.mem_append.1 hc with h | h
    · exact hA c h
    · exact hdigit_space c h
  simp only [parse_command_error, hdata,
      splitFirstChar_append ' ' _ _ hnospace,
      splitAll_tag codeStr.data hdigit_colon,
      pyToNatL_digits codeStr.data hne hd,
      string_mk_data]

/-- C2: for every response stream whose next line is a well-formed error line
(`R:ERROR:<code> <message>`), `raw_request` raises instead of returning: it
yields `LoginRequiredError` exactly when the numeric code in the tag is 21,
`LoginFailedError` exactly when it is 23, and the generic `CommandError`
carrying the code and message for every other code. -/
theorem raw_request_error_dispatch (l : String) (rest : List String)
    (codeStr msg : String)
    (hline : rstripM l = "R:ERROR:" ++ codeStr ++ " " ++ msg)
    (hne : codeStr.data ≠ []) (hd : ∀ c ∈ codeStr.data, c.isDigit) :
    (∃ e, raw_request (l :: rest) = .err e)
    ∧ (digitsToNat codeStr.data = 21 →
        raw_request (l :: rest) = .err (.loginRequired msg))
    ∧ (digitsToNat codeStr.data = 23 →
        raw_request (l :: rest) = .err (.loginFailed msg))
    ∧ (digitsToNat codeStr.data ≠ 21 → digitsToNat codeStr.data ≠ 23 →
        raw_request (l :: rest) = .err (.commandError
          (msg ++ " (Error code " ++ Nat.repr (digitsToNat codeStr.data) ++ ")"))) := by
  have hstart : startsWithM ("R:ERROR:" ++ codeStr ++ " " ++ msg) "R:ERROR" = true := by
    have hdata : ("R:ERROR:" ++ codeStr ++ " " ++ msg).data =
        "R:ERROR".data ++ (':' :: (codeStr.data ++ (' ' :: msg.data))) := by
      have h1 : "R:ERROR:".data = "R:ERROR".data ++ [':'] := rfl
      have h2 : (" " : String).data = [' '] := rfl
      simp [String.data_append, h1, h2]
    rw [startsWithM, hdata]
    exact isPrefixOf_append_self _ _
  have hparse := parse_command_error_wf codeStr msg hne hd
  have hrr : raw_request (l :: rest) =
      .err (errorFor (digitsToNat codeStr.data) msg) := by
    simp only [raw_request, hline, hstart, if_true, hparse]
  refine ⟨⟨_, hrr⟩, ?_, ?_, ?_⟩
  · intro h21
    simp [hrr, errorFor, h21]
  · intro h23
    simp [hrr, errorFor, h23]
  · intro h21 h23
    simp [hrr, errorFor, h21, h23]

theorem raw_request_error_dispatch_witness :
    rstripM "R:ERROR:23 Login failed" = "R:ERROR:" ++ "23" ++ " " ++ "Login failed"
    ∧ raw_request ["R:ERROR:23 Login failed"] =
        .err (.loginFailed "Login failed") := by
  refine ⟨by decide, ?_⟩
  have h := raw_request_error_dispatch "R:ERROR:23 Login failed" [] "23"
    "Login failed" (by decide) (by decide) (by decide)
  exact h.2.2.1 (by decide)

theorem isPrefixOf_cons_iff (a : Char) (as l : List Char) :
    (a :: as).isPrefixOf l = true ↔ ∃ t, l = a :: t ∧ as.isPrefixOf t = true := by
  cases l with
  | nil => simp [List.isPrefixOf]
  | cons b bs =>
    simp only [List.isPrefixOf, Bool.and_eq_true, beq_iff_eq]
    constructor
    · rintro ⟨h1, h2⟩
      exact ⟨bs, by rw [h1], h2⟩
    · rintro ⟨t, ht, h2⟩
      cases ht
      exact ⟨rfl, h2⟩

theorem startsWith_R_head (s : String) (h : startsWithM s "R:" = true) :
    ∃ t, s.data = 'R' :: t := by
  rw [startsWithM] at h
  have h2 : "R:".data = ['R', ':'] := rfl
  rw [h2] at h
  rcases (isPrefixOf_cons_iff 'R' [':'] s.data).1 h with ⟨t, ht, _⟩
  exact ⟨t, ht⟩

theorem error_starts_R (s : String) (h : startsWithM s "R:ERROR" = true) :
    startsWithM s "R:" = true := by
  rw [startsWithM] at h ⊢
  have h2 : "R:ERROR".data = ['R', ':', 'E', 'R', 'R', 'O', 'R'] := rfl
  have h3 : "R:".data = ['R', ':'] := rfl
  rw [h2] at h
  rw [h3]
  rcases (isPrefixOf_cons_iff _ _ _).1 h with ⟨t, ht, h4⟩
  rcases (isPrefixOf_cons_iff _ _ _).1 h4 with ⟨t2, ht2, _⟩
  rw [ht, ht2]
  simp [List.isPrefixOf]

theorem event_not_error (s : String) (h : isEventLine s = true) :
    startsWithM s "R:ERROR" = false := by
  rw [isEventLine, Bool.or_eq_true, Bool.or_eq_true] at h
  rcases h with (h2 | h2) | h1
  · rw [startsWithM] at h2 ⊢
    have e1 : "S:".data = ['S', ':'] := rfl
    rw [e1] at h2
    rcases (isPrefixOf_cons_iff _ _ _).1 h2 with ⟨t, ht, _⟩
    have e2 : "R:ERROR".data = ['R', ':', 'E', 'R', 'R', 'O', 'R'] := rfl
    rw [e2, ht]
    simp [List.isPrefixOf]
  · rw [startsWithM] at h2 ⊢
    have e1 : "L:".data = ['L', ':'] := rfl
    rw [e1] at h2
    rcases (isPrefixOf_cons_iff _ _ _).1 h2 with ⟨t, ht, _⟩
    have e2 : "R:ERROR".data = ['R', ':', 'E', 'R', 'R', 'O', 'R'] := rfl
    rw [e2, ht]
    simp [List.isPrefixOf]
  · rw [startsWithM] at h1 ⊢
    have e1 : "EL:".data = ['E', 'L', ':'] := rfl
    rw [e1] at h1
    rcases (isPrefixOf_cons_iff _ _ _).1 h1 with ⟨t, ht, _⟩
    have e2 : "R:ERROR".data = ['R', ':', 'E', 'R', 'R', 'O', 'R'] := rfl
    rw [e2, ht]
    simp [List.isPrefixOf]

theorem R_not_event (s : String) (h : startsWithM s "R:" = true) :
    isEventLine s = false := by
  rcases startsWith_R_head s h with ⟨t, ht⟩
  rw [isEventLine, startsWithM, startsWithM, startsWithM]
  have e1 : "S:".data = ['S', ':'] := rfl
  have e2 : "L:".data = ['L', ':'] := rfl
  have e3 : "EL:".data = ['E', 'L', ':'] := rfl
  rw [e1, e2, e3, ht]
  simp [List.isPrefixOf]

theorem raw_request_skips (pre : List String) (reply : String)
    (rest : List String)
    (hpre : ∀ l ∈ pre,
      isEventLine (rstripM l) = true ∨ startsWithM (rstripM l) "R:" = false)
    (hr : startsWithM (rstripM reply) "R:" = true)
    (hne : startsWithM (rstripM reply) "R:ERROR" = false) :
    raw_request (pre ++ reply :: rest) =
      .ok ((pre.map rstripM).filter (fun x => !isEventLine x) ++ [rstripM reply]) := by
  induction pre with
  | nil =>
    simp [raw_request, hne, R_not_event (rstripM reply) hr, hr]
  | cons l pre' ih =>
    have htail := ih (fun x hx => hpre x (by simp [hx]))
    by_cases hev : isEventLine (rstripM l) = true
    · have herr : startsWithM (rstripM l) "R:ERROR" = false := event_not_error _ hev
      simp [List.cons_append, raw_request, herr, hev, htail]
    · have hR : startsWithM (rstripM l) "R:" = false := by
        rcases hpre l (by simp) with h | h
        · exact absurd h hev
        · exact h
      have herr : startsWithM (rstripM l) "R:ERROR" = false := by
        cases hcontra : startsWithM (rstripM l) "R:ERROR"
        · rfl
        · exact absurd (error_starts_R _ hcontra) (by simp [hR])
      simp [List.cons_append, raw_request, herr, hev, hR, htail]

/-- C1: for every response stream made of data lines and interleaved event
lines followed by a reply line (the first line starting with the reply marker
and not an error line), with at least one event line present, `raw_request`
returns exactly the data lines followed by the reply line, in stream order,
and the returned sequence contains no event line. -/
theorem raw_request_demultiplexes (pre : List String) (reply : String)
    (rest : List String)
    (hpre : ∀ l ∈ pre,
      isEventLine (rstripM l) = true ∨ startsWithM (rstripM l) "R:" = false)
    (hr : startsWithM (rstripM reply) "R:" = true)
    (hne : startsWithM (rstripM reply) "R:ERROR" = false)
    (_hev : ∃ l ∈ pre, isEventLine (rstripM l) = true) :
    raw_request (pre ++ reply :: rest) =
      .ok ((pre.map rstripM).filter (fun x => !isEventLine x) ++ [rstripM reply])
    ∧ ∀ x ∈ (pre.map rstripM).filter (fun x => !isEventLine x) ++ [rstripM reply],
        isEventLine x = false := by
  refine ⟨raw_request_skips pre reply rest hpre hr hne, ?_⟩
  intro x hx
  rcases List.mem_append.1 hx with h | h
  · have h2 := List.of_mem_filter h
    simpa using h2
  · rw [List.mem_singleton] at h
    subst h
    exact R_not_event _ hr

theorem raw_request_demultiplexes_witness :
    (∀ l ∈ ["load 1 50", "S:LOAD 1 75"],
      isEventLine (rstripM l) = true ∨ startsWithM (rstripM l) "R:" = false)
    ∧ (∃ l ∈ ["load 1 50", "S:LOAD 1 75"], isEventLine (rstripM l) = true)
    ∧ raw_request (["load 1 50", "S:LOAD 1 75"] ++ "R:GETLOAD 1 50" :: []) =
        .ok ((["load 1 50", "S:LOAD 1 75"].map rstripM).filter
              (fun x => !isEventLine x) ++ [rstripM "R:GETLOAD 1 50"])
    ∧ ∀ x ∈ (["load 1 50", "S:LOAD 1 75"].map rstripM).filter
              (fun x => !isEventLine x) ++ [rstripM "R:GETLOAD 1 50"],
        isEventLine x = false := by
  refine ⟨by decide, by decide, ?_, ?_⟩
  · exact (raw_request_demultiplexes ["load 1 50", "S:LOAD 1 75"]
      "R:GETLOAD 1 50" [] (by decide) (by decide) (by decide) (by decide)).1
  · exact (raw_request_demultiplexes ["load 1 50", "S:LOAD 1 75"]
      "R:GETLOAD 1 50" [] (by decide) (by decide) (by decide) (by decide)).2

theorem getattrO_setattrO_self (o : Obj) (k : String) (v : Int) :
    getattrO (setattrO o k v) k = some v := assocGet_assocSet_self _ _ _

theorem getattrO_setattrO_ne (o : Obj) (k k' : String) (v : Int) (h : k' ≠ k) :
    getattrO (setattrO o k v) k' = getattrO o k' := assocGet_assocSet_ne _ _ _ _ h

theorem foldl_applyField_id (st : List (String × Int)) (obj : Obj)
    (chg : List String) (h : ∀ kv ∈ st, getattrO obj kv.1 = some kv.2) :
    st.foldl applyField (obj, chg) = (obj, chg) := by
  induction st with
  | nil => rfl
  | cons kv rest ih =>
    have hstep : applyField (obj, chg) kv = (obj, chg) := by
      simp [applyField, h kv (by simp)]
    rw [List.foldl_cons, hstep]
    exact ih (fun x hx => h x (by simp [hx]))

theorem foldl_applyField_spec (st : List (String × Int)) :
    ∀ (a : Obj) (chg : List String),
    (st.map Prod.fst).Nodup →
    (∀ kv ∈ st, (getattrO a kv.1).isSome) →
    (st.foldl applyField (a, chg)).2 =
        chg ++ (st.filter
          (fun kv => decide (getattrO a kv.1 ≠ some kv.2))).map Prod.fst
    ∧ (∀ kv ∈ st, getattrO (st.foldl applyField (a, chg)).1 kv.1 = some kv.2)
    ∧ (∀ n, n ∉ st.map Prod.fst →
        getattrO (st.foldl applyField (a, chg)).1 n = getattrO a n) := by
  induction st with
  | nil => simp
  | cons kv rest ih =>
    intro a chg hnd hsome
    rw [List.map, List.nodup_cons] at hnd
    obtain ⟨hknotin, hndrest⟩ := hnd
    obtain ⟨v, hv⟩ := Option.isSome_iff_exists.1 (hsome kv (by simp))
    by_cases heq : v = kv.2
    · subst heq
      have hstep : applyField (a, chg) kv = (a, chg) := by
        simp [applyField, hv]
      have ihr := ih a chg hndrest (fun x hx => hsome x (by simp [hx]))
      obtain ⟨ih1, ih2, ih3⟩ := ihr
      have hcond : decide (getattrO a kv.1 ≠ some kv.2) = false := by
        simp [hv]
      refine ⟨?_, ?_, ?_⟩
      · rw [List.foldl_cons, hstep, ih1, List.filter_cons, hcond]
        simp
      · intro x hx
        rcases List.mem_cons.1 hx with h1 | h1
        · subst h1
          rw [List.foldl_cons, hstep, ih3 x.1 (by simpa using hknotin)]
          exact hv
        · rw [List.foldl_cons, hstep]
          exact ih2 x h1
      · intro n hn
        rw [List.map_cons, List.mem_cons] at hn
        push_neg at hn
        rw [List.foldl_cons, hstep]
        exact ih3 n hn.2
    · have hstep : applyField (a, chg) kv =
          (setattrO a kv.1 kv.2, chg ++ [kv.1]) := by
        simp [applyField, hv, heq]
      have hpres : ∀ x ∈ rest, (getattrO (setattrO a kv.1 kv.2) x.1).isSome := by
        intro x hx
        have hne : x.1 ≠ kv.1 := by
          intro hcontra
          exact hknotin (hcontra ▸ List.mem_map_of_mem Prod.fst hx)
        rw [getattrO_setattrO_ne a kv.1 x.1 kv.2 hne]
        exact hsome x (by simp [hx])
      have ihr := ih (setattrO a kv.1 kv.2) (chg ++ [kv.1]) hndrest hpres
      obtain ⟨ih1, ih2, ih3⟩ := ihr
      have hfiltercongr : rest.filter
            (fun x => decide (getattrO (setattrO a kv.1 kv.2) x.1 ≠ some x.2)) =
          rest.filter (fun x => decide (getattrO a x.1 ≠ some x.2)) := by
        apply List.filter_congr
        intro x hx
        have hne : x.1 ≠ kv.1 := by
          intro hcontra
          exact hknotin (hcontra ▸ List.mem_map_of_mem Prod.fst hx)
        rw [getattrO_setattrO_ne a kv.1 x.1 kv.2 hne]
      have hcond : decide (getattrO a kv.1 ≠ some kv.2) = true := by
        simp [hv, heq]
      refine ⟨?_, ?_, ?_⟩
      · rw [List.foldl_cons, hstep, ih1, hfiltercongr, List.filter_cons, hcond]
        simp
      · intro x hx
        rcases List.mem_cons.1 hx with h1 | h1
        · subst h1
          rw [List.foldl_cons, hstep, ih3 x.1 (by simpa using hknotin)]
          exact getattrO_setattrO_self a x.1 x.2
        · rw [List.foldl_cons, hstep]
          exact ih2 x h1
      · intro n hn
        rw [List.map_cons, List.mem_cons] at hn
        push_neg at hn
        rw [List.foldl_cons, hstep, ih3 n hn.2]
        exact getattrO_setattrO_ne a kv.1 n kv.2 hn.1

/-- C4: `update_state` with an id unknown to the controller leaves the cache
unchanged and emits nothing; with a known id and all given field values equal
to the cached ones it emits nothing and changes nothing; with a known id and
some differing given fields it applies exactly the differing fields and
emits exactly one UPDATED event naming exactly the fields that differed. -/
theorem update_state_spec (items : List (Nat × Obj)) (vid : Nat)
    (st : List (String × Int))
    (hk : (items.map Prod.fst).Nodup) (hs : (st.map Prod.fst).Nodup) :
    (assocGet items vid = none → update_state items vid st = (items, []))
    ∧ (∀ obj, assocGet items vid = some obj →
        (∀ kv ∈ st, getattrO obj kv.1 = some kv.2) →
        update_state items vid st = (items, []))
    ∧ (∀ obj, assocGet items vid = some obj →
        (∀ kv ∈ st, (getattrO obj kv.1).isSome) →
        (st.filter (fun kv => decide (getattrO obj kv.1 ≠ some kv.2))).map
            Prod.fst ≠ [] →
        ∃ obj2,
          update_state items vid st =
            (assocSet items vid obj2,
             [⟨EvKind.updated, vid,
               (st.filter (fun kv =>
                 decide (getattrO obj kv.1 ≠ some kv.2))).map Prod.fst⟩])
          ∧ (∀ kv ∈ st, getattrO obj2 kv.1 = some kv.2)
          ∧ (∀ n, n ∉ st.map Prod.fst → getattrO obj2 n = getattrO obj n)) := by
  refine ⟨?_, ?_, ?_⟩
  · intro h
    simp [update_state, h]
  · intro obj hobj hall
    rw [update_state, hobj]
    simp [foldl_applyField_id st obj [] hall,
      assocSet_eq_of_get items vid obj hk hobj]
  · intro obj hobj hsome hchanged
    have hspec := foldl_applyField_spec st obj [] hs hsome
    obtain ⟨h1, h2, h3⟩ := hspec
    refine ⟨(st.foldl applyField (obj, [])).1, ?_, h2, h3⟩
    have h1' : (st.foldl applyField (obj, [])).2 =
        (st.filter (fun kv =>
          decide (getattrO obj kv.1 ≠ some kv.2))).map Prod.fst := by
      simpa using h1
    rw [update_state, hobj]
    simp only [h1']
    rw [if_neg hchanged]

theorem update_state_spec_witness :
    (([(1, Obj.mk 1 [("level", 10), ("color", 3), ("mtime", 0)])].map
        Prod.fst).Nodup
      ∧ ([("level", (10 : Int)), ("color", 4)].map Prod.fst).Nodup)
    ∧ ((assocGet [(1, Obj.mk 1 [("level", 10), ("color", 3), ("mtime", 0)])] 1 =
          none →
        update_state [(1, Obj.mk 1 [("level", 10), ("color", 3), ("mtime", 0)])]
            1 [("level", 10), ("color", 4)] =
          ([(1, Obj.mk 1 [("level", 10), ("color", 3), ("mtime", 0)])], []))
      ∧ (∀ obj,
          assocGet [(1, Obj.mk 1 [("level", 10), ("color", 3), ("mtime", 0)])] 1 =
            some obj →
          (∀ kv ∈ [("level", (10 : Int)), ("color", 4)],
            getattrO obj kv.1 = some kv.2) →
          update_state [(1, Obj.mk 1 [("level", 10), ("color", 3), ("mtime", 0)])]
              1 [("level", 10), ("color", 4)] =
            ([(1, Obj.mk 1 [("level", 10), ("color", 3), ("mtime", 0)])], []))
      ∧ (∀ obj,
          assocGet [(1, Obj.mk 1 [("level", 10), ("color", 3), ("mtime", 0)])] 1 =
            some obj →
          (∀ kv ∈ [("level", (10 : Int)), ("color", 4)],
            (getattrO obj kv.1).isSome) →
          ([("level", (10 : Int)), ("color", 4)].filter
              (fun kv => decide (getattrO obj kv.1 ≠ some kv.2))).map
            Prod.fst ≠ [] →
          ∃ obj2,
            update_state
                [(1, Obj.mk 1 [("level", 10), ("color", 3), ("mtime", 0)])] 1
                [("level", 10), ("color", 4)] =
              (assocSet [(1, Obj.mk 1 [("level", 10), ("color", 3), ("mtime", 0)])]
                 1 obj2,
               [⟨EvKind.updated, 1,
                 ([("level", (10 : Int)), ("color", 4)].filter (fun kv =>
                   decide (getattrO obj kv.1 ≠ some kv.2))).map Prod.fst⟩])
            ∧ (∀ kv ∈ [("level", (10 : Int)), ("color", 4)],
                getattrO obj2 kv.1 = some kv.2)
            ∧ (∀ n, n ∉ [("level", (10 : Int)), ("color", 4)].map Prod.fst →
                getattrO obj2 n = getattrO obj n))) :=
  ⟨⟨by decide, by decide⟩,
   update_state_spec [(1, Obj.mk 1 [("level", 10), ("color", 3), ("mtime", 0)])]
     1 [("level", 10), ("color", 4)] (by decide) (by decide)⟩

theorem attrsChanged_self (o : Obj) : attrsChanged o o = [] := by
  simp [attrsChanged]

theorem foldl_processOne_unchanged (items0 : List (Nat × Obj)) :
    ∀ (fetched : List Obj) (cur : List Nat) (evs : List Ev),
    (∀ o ∈ fetched, assocGet items0 o.id = some o) →
    fetched.foldl (processOne (items0.map Prod.fst)) ⟨items0, cur, evs⟩ =
      ⟨items0, cur ++ fetched.map Obj.id, evs⟩ := by
  intro fetched
  induction fetched with
  | nil =>
    intro cur evs h
    simp
  | cons o rest ih =>
    intro cur evs h
    have hid : assocGet items0 o.id = some o := h o (by simp)
    have hmem : o.id ∈ items0.map Prod.fst :=
      (assocGet_isSome_iff items0 o.id).1 (by simp [hid])
    have hstep : processOne (items0.map Prod.fst) ⟨items0, cur, evs⟩ o =
        ⟨items0, cur ++ [o.id], evs⟩ := by
      simp [processOne, hmem, hid, attrsChanged_self]
    rw [List.foldl_cons, hstep,
        ih (cur ++ [o.id]) evs (fun x hx => h x (by simp [hx]))]
    simp

/-- C7: running `initialize` again with a fetched set whose objects are
identical to the cache (same ids, same field values) emits zero ADDED,
UPDATED or DELETED events and leaves the cache unchanged. -/
theorem reconcile_idempotent (items0 : List (Nat × Obj)) (fetched : List Obj)
    (hsame : ∀ o ∈ fetched, assocGet items0 o.id = some o)
    (hcover : ∀ k ∈ items0.map Prod.fst, k ∈ fetched.map Obj.id) :
    (reconcile items0 fetched).events = []
    ∧ (reconcile items0 fetched).items = items0 := by
  have hloop := foldl_processOne_unchanged items0 fetched [] [] hsame
  have hdel : (items0.map Prod.fst).filter
      (fun k => decide (k ∉ ([] : List Nat) ++ fetched.map Obj.id)) = [] := by
    rw [List.filter_eq_nil_iff]
    intro k hk
    simp [hcover k hk]
  rw [reconcile]
  simp only [hloop, hdel]
  simp

theorem reconcile_idempotent_witness :
    (∀ o ∈ [Obj.mk 1 [("level", 10), ("mtime", 7)]],
      assocGet [(1, Obj.mk 1 [("level", 10), ("mtime", 7)])] o.id = some o)
    ∧ (∀ k ∈ [(1, Obj.mk 1 [("level", 10), ("mtime", 7)])].map Prod.fst,
        k ∈ [Obj.mk 1 [("level", 10), ("mtime", 7)]].map Obj.id)
    ∧ (reconcile [(1, Obj.mk 1 [("level", 10), ("mtime", 7)])]
        [Obj.mk 1 [("level", 10), ("mtime", 7)]]).events = []
    ∧ (reconcile [(1, Obj.mk 1 [("level", 10), ("mtime", 7)])]
        [Obj.mk 1 [("level", 10), ("mtime", 7)]]).items =
      [(1, Obj.mk 1 [("level", 10), ("mtime", 7)])] := by
  refine ⟨by decide, by decide, ?_, ?_⟩
  · exact (reconcile_idempotent _ _ (by decide) (by decide)).1
  · exact (reconcile_idempotent _ _ (by decide) (by decide)).2

theorem assocGet_assocSet_isSome {κ α : Type} [DecidableEq κ]
    (m : List (κ × α)) (k k' : κ) (v : α) :
    (assocGet (assocSet m k v) k').isSome ↔
      ((assocGet m k').isSome ∨ k' = k) := by
  by_cases h : k' = k
  · subst h
    simp [assocGet_assocSet_self]
  · simp [assocGet_assocSet_ne m k k' v h, h]

theorem foldl_processOne_spec (items0 : List (Nat × Obj)) :
    ∀ (fetched : List Obj) (s : InitState) (pids : List Nat),
    (∀ k, k ∉ pids → assocGet s.items k = assocGet items0 k) →
    (fetched.map Obj.id).Nodup →
    (∀ o ∈ fetched, o.id ∉ pids) →
    (fetched.foldl (processOne (items0.map Prod.fst)) s).events =
        s.events ++ fetched.flatMap (fetchEvents items0 (items0.map Prod.fst))
    ∧ (fetched.foldl (processOne (items0.map Prod.fst)) s).curIds =
        s.curIds ++ fetched.map Obj.id
    ∧ (∀ k, k ∉ pids ++ fetched.map Obj.id →
        assocGet (fetched.foldl (processOne (items0.map Prod.fst)) s).items k =
          assocGet items0 k)
    ∧ (∀ k,
        (assocGet (fetched.foldl (processOne (items0.map Prod.fst)) s).items
          k).isSome
        ↔ ((assocGet s.items k).isSome ∨ k ∈ fetched.map Obj.id)) := by
  intro fetched
  induction fetched with
  | nil =>
    intro s pids hpres hnd hnotin
    refine ⟨by simp, by simp, ?_, by simp⟩
    intro k hk
    simp only [List.map_nil, List.append_nil] at hk
    simp only [List.foldl_nil]
    exact hpres k hk
  | cons o rest ih =>
    intro s pids hpres hnd hnotin
    rw [List.map_cons, List.nodup_cons] at hnd
    obtain ⟨honotin, hndrest⟩ := hnd
    have hoid : o.id ∉ pids := hnotin o (by simp)
    have hgets : assocGet s.items o.id = assocGet items0 o.id := hpres o.id hoid
    have hnotin' : ∀ x ∈ rest, x.id ∉ pids ++ [o.id] := by
      intro x hx
      rw [List.mem_append, List.mem_singleton]
      push_neg
      exact ⟨hnotin x (by simp [hx]),
        fun hcontra => honotin (hcontra ▸ List.mem_map_of_mem Obj.id hx)⟩
    have hmemco : ∀ k, (k ∉ pids ++ (o.id :: rest.map Obj.id)) ↔
        (k ∉ (pids ++ [o.id]) ++ rest.map Obj.id) := by
      intro k
      simp [List.mem_append, List.mem_cons, or_assoc]
    by_cases hmem : o.id ∈ items0.map Prod.fst
    · obtain ⟨prev, hprev⟩ : ∃ p, assocGet items0 o.id = some p :=
        Option.isSome_iff_exists.1 ((assocGet_isSome_iff items0 o.id).2 hmem)
      have hfe : fetchEvents items0 (items0.map Prod.fst) o =
          if attrsChanged prev o = [] then []
          else [⟨EvKind.updated, o.id, attrsChanged prev o⟩] := by
        simp [fetchEvents, hmem, hprev]
      by_cases hchg : attrsChanged prev o = []
      · have hstep : processOne (items0.map Prod.fst) s o =
            { s with curIds := s.curIds ++ [o.id] } := by
          simp [processOne, hmem, hgets, hprev, hchg]
        have hpres' : ∀ k, k ∉ pids ++ [o.id] →
            assocGet ({ s with curIds := s.curIds ++ [o.id] } : InitState).items
              k = assocGet items0 k := by
          intro k hk
          rw [List.mem_append] at hk
          push_neg at hk
          exact hpres k hk.1
        obtain ⟨ih1, ih2, ih3, ih4⟩ :=
          ih { s with curIds := s.curIds ++ [o.id] } (pids ++ [o.id]) hpres'
            hndrest hnotin'
        rw [List.foldl_cons, hstep]
        refine ⟨?_, ?_, ?_, ?_⟩
        · rw [ih1, List.flatMap_cons, hfe, if_pos hchg]
          simp
        · rw [ih2]
          simp
        · intro k hk
          exact ih3 k ((hmemco k).1 hk)
        · intro k
          rw [ih4 k]
          constructor
          · rintro (h1 | h1)
            · exact Or.inl h1
            · exact Or.inr (by simp [h1])
          · rintro (h1 | h1)
            · exact Or.inl h1
            · rcases List.mem_cons.1 h1 with h2 | h2
              · subst h2
                exact Or.inl (by rw [hgets, hprev]; rfl)
              · exact Or.inr h2
      · have hstep : processOne (items0.map Prod.fst) s o =
            ⟨assocSet s.items o.id (applyChanged prev o (attrsChanged prev o)),
             s.curIds ++ [o.id],
             s.events ++ [⟨EvKind.updated, o.id, attrsChanged prev o⟩]⟩ := by
          simp [processOne, hmem, hgets, hprev, hchg]
        have hpres' : ∀ k, k ∉ pids ++ [o.id] →
            assocGet (assocSet s.items o.id
              (applyChanged prev o (attrsChanged prev o))) k =
              assocGet items0 k := by
          intro k hk
          rw [List.mem_append, List.mem_singleton] at hk
          push_neg at hk
          rw [assocGet_assocSet_ne _ _ _ _ hk.2]
          exact hpres k hk.1
        obtain ⟨ih1, ih2, ih3, ih4⟩ :=
          ih ⟨assocSet s.items o.id (applyChanged prev o (attrsChanged prev o)),
              s.curIds ++ [o.id],
              s.events ++ [⟨EvKind.updated, o.id, attrsChanged prev o⟩]⟩
            (pids ++ [o.id]) hpres' hndrest hnotin'
        rw [List.foldl_cons, hstep]
        refine ⟨?_, ?_, ?_, ?_⟩
        · rw [ih1, List.flatMap_cons, hfe, if_neg hchg]
          simp
        · rw [ih2]
          simp
        · intro k hk
          exact ih3 k ((hmemco k).1 hk)
        · intro k
          rw [ih4 k]
          simp only [assocGet_assocSet_isSome]
          constructor
          · rintro ((h1 | h1) | h1)
            · exact Or.inl h1
            · exact Or.inr (by simp [h1])
            · exact Or.inr (by simp [h1])
          · rintro (h1 | h1)
            · exact Or.inl (Or.inl h1)
            · rcases List.mem_cons.1 h1 with h2 | h2
              · exact Or.inl (Or.inr h2)
              · exact Or.inr h2
    · have hstep : processOne (items0.map Prod.fst) s o =
          ⟨assocSet s.items o.id o, s.curIds ++ [o.id],
           s.events ++ [⟨EvKind.added, o.id, []⟩]⟩ := by
        simp [processOne, hmem]
      have hfe : fetchEvents items0 (items0.map Prod.fst) o =
          [⟨EvKind.added, o.id, []⟩] := by
        simp [fetchEvents, hmem]
      have hpres' : ∀ k, k ∉ pids ++ [o.id] →
          assocGet (assocSet s.items o.id o) k = assocGet items0 k := by
        intro k hk
        rw [List.mem_append, List.mem_singleton] at hk
        push_neg at hk
        rw [assocGet_assocSet_ne _ _ _ _ hk.2]
        exact hpres k hk.1
      obtain ⟨ih1, ih2, ih3, ih4⟩ :=
        ih ⟨assocSet s.items o.id o, s.curIds ++ [o.id],
            s.events ++ [⟨EvKind.added, o.id, []⟩]⟩
          (pids ++ [o.id]) hpres' hndrest hnotin'
      rw [List.foldl_cons, hstep]
      refine ⟨?_, ?_, ?_, ?_⟩
      · rw [ih1, List.flatMap_cons, hfe]
        simp
      · rw [ih2]
        simp
      · intro k hk
        exact ih3 k ((hmemco k).1 hk)
      · intro k
        rw [ih4 k]
        simp only [assocGet_assocSet_isSome]
        constructor
        · rintro ((h1 | h1) | h1)
          · exact Or.inl h1
          · exact Or.inr (by simp [h1])
          · exact Or.inr (by simp [h1])
        · rintro (h1 | h1)
          · exact Or.inl (Or.inl h1)
          · rcases List.mem_cons.1 h1 with h2 | h2
            · exact Or.inl (Or.inr h2)
            · exact Or.inr h2

theorem assocGet_foldl_erase {κ α : Type} [DecidableEq κ] :
    ∀ (ks : List κ) (m : List (κ × α)) (k : κ),
    assocGet (ks.foldl (fun mm kk => assocErase mm kk) m) k =
      if k ∈ ks then none else assocGet m k := by
  intro ks
  induction ks with
  | nil =>
    intro m k
    simp
  | cons k0 rest ih =>
    intro m k
    rw [List.foldl_cons, ih]
    by_cases h : k ∈ rest
    · simp [h]
    · by_cases h2 : k = k0
      · subst h2
        simp [h, assocGet_assocErase_self]
      · simp [h, h2, assocGet_assocErase_ne m k0 k h2]

theorem reconcile_spec (items0 : List (Nat × Obj)) (fetched : List Obj)
    (hf : (fetched.map Obj.id).Nodup) :
    (reconcile items0 fetched).events =
      fetched.flatMap (fetchEvents items0 (items0.map Prod.fst))
        ++ ((items0.map Prod.fst).filter
            (fun k => decide (k ∉ fetched.map Obj.id))).map
          (fun k => (⟨EvKind.deleted, k, []⟩ : Ev))
    ∧ ∀ k, (assocGet (reconcile items0 fetched).items k).isSome ↔
        k ∈ fetched.map Obj.id := by
  obtain ⟨h1, h2, h3, h4⟩ := foldl_processOne_spec items0 fetched
    ⟨items0, [], []⟩ [] (fun k _ => rfl) hf (fun o _ => List.not_mem_nil o.id)
  rw [reconcile]
  simp only [h1, h2, List.nil_append]
  refine ⟨trivial, ?_⟩
  intro k
  rw [assocGet_foldl_erase]
  by_cases hdel : k ∈ (items0.map Prod.fst).filter
      (fun k => decide (k ∉ fetched.map Obj.id))
  · rw [if_pos hdel]
    rcases List.mem_filter.1 hdel with ⟨_, hnot⟩
    simp at hnot
    simp
    exact hnot
  · rw [if_neg hdel, h4 k]
    simp only [assocGet_isSome_iff]
    constructor
    · rintro (hin | hin)
      · by_contra hnotf
        exact hdel (List.mem_filter.2 ⟨hin, by simpa using hnotf⟩)
      · exact hin
    · intro hin
      exact Or.inr hin

theorem fetchEvents_filter_added (items0 : List (Nat × Obj)) (pids : List Nat)
    (o : Obj) :
    (fetchEvents items0 pids o).filter (fun e => e.kind == EvKind.added) =
      if o.id ∈ pids then [] else [⟨EvKind.added, o.id, []⟩] := by
  rw [fetchEvents]
  by_cases h : o.id ∈ pids
  · simp only [h, if_true]
    cases assocGet items0 o.id with
    | none => simp
    | some prev =>
      by_cases hc : attrsChanged prev o = [] <;> simp [hc]
  · simp [h]

theorem fetchEvents_filter_updated (items0 : List (Nat × Obj)) (pids : List Nat)
    (o : Obj) :
    (fetchEvents items0 pids o).filter (fun e => e.kind == EvKind.updated) =
      if o.id ∈ pids then fetchEvents items0 pids o else [] := by
  rw [fetchEvents]
  by_cases h : o.id ∈ pids
  · simp only [h, if_true]
    cases assocGet items0 o.id with
    | none => simp
    | some prev =>
      by_cases hc : attrsChanged prev o = [] <;> simp [hc]
  · simp [h]

theorem fetchEvents_filter_deleted (items0 : List (Nat × Obj)) (pids : List Nat)
    (o : Obj) :
    (fetchEvents items0 pids o).filter (fun e => e.kind == EvKind.deleted) = [] := by
  rw [fetchEvents]
  by_cases h : o.id ∈ pids
  · simp only [h, if_true]
    cases assocGet items0 o.id with
    | none => simp
    | some prev =>
      by_cases hc : attrsChanged prev o = [] <;> simp [hc]
  · simp [h]

theorem filter_flatMap {α β : Type} (l : List α) (g : α → List β) (p : β → Bool) :
    (l.flatMap g).filter p = l.flatMap (fun a => (g a).filter p) := by
  induction l with
  | nil => rfl
  | cons a rest ih => simp [List.flatMap_cons, List.filter_append, ih]

theorem flatMap_eq_nil_of {α β : Type} (l : List α) (g : α → List β)
    (h : ∀ x ∈ l, g x = []) : l.flatMap g = [] := by
  induction l with
  | nil => rfl
  | cons a rest ih =>
    simp [List.flatMap_cons, h a (by simp), ih (fun x hx => h x (by simp [hx]))]

theorem flatMap_eq_single {α β : Type} (l : List α) (g : α → List β) (u : α) :
    u ∈ l → l.Nodup → (∀ x ∈ l, x ≠ u → g x = []) → l.flatMap g = g u := by
  induction l with
  | nil => intro hu; cases hu
  | cons a rest ih =>
    intro hu hnd hothers
    rcases List.mem_cons.1 hu with heq | hmem
    · subst heq
      have hrest : ∀ x ∈ rest, g x = [] := by
        intro x hx
        exact hothers x (by simp [hx])
          (fun hcontra => (List.nodup_cons.1 hnd).1 (hcontra ▸ hx))
      rw [List.flatMap_cons, flatMap_eq_nil_of rest g hrest, List.append_nil]
    · have ha : a ≠ u := fun hcontra =>
        (List.nodup_cons.1 hnd).1 (hcontra ▸ hmem)
      rw [List.flatMap_cons, hothers a (by simp) ha, List.nil_append]
      exact ih hmem (List.nodup_cons.1 hnd).2
        (fun x hx hne => hothers x (by simp [hx]) hne)

theorem filter_kind_map_deleted (ks : List Nat) (kd : EvKind)
    (h : (EvKind.deleted == kd) = false) :
    ((ks.map (fun k => (⟨EvKind.deleted, k, []⟩ : Ev))).filter
      (fun e => e.kind == kd)) = [] := by
  induction ks with
  | nil => rfl
  | cons k rest ih => simp [h, ih]

theorem filter_deleted_map_deleted (ks : List Nat) :
    ((ks.map (fun k => (⟨EvKind.deleted, k, []⟩ : Ev))).filter
      (fun e => e.kind == EvKind.deleted)) =
      ks.map (fun k => (⟨EvKind.deleted, k, []⟩ : Ev)) := by
  induction ks with
  | nil => rfl
  | cons k rest ih => simp [ih]

theorem length_filter_added_flatMap (items0 : List (Nat × Obj))
    (pids : List Nat) :
    ∀ fetched : List Obj,
    ((fetched.flatMap (fetchEvents items0 pids)).filter
        (fun e => e.kind == EvKind.added)).length =
      (fetched.filter (fun o => decide (o.id ∉ pids))).length := by
  intro fetched
  induction fetched with
  | nil => rfl
  | cons o rest ih =>
    rw [List.flatMap_cons, List.filter_append, List.length_append, ih,
      fetchEvents_filter_added, List.filter_cons]
    by_cases h : o.id ∈ pids
    · simp [h]
    · simp [h, Nat.add_comm]

/-- C3: when a fetch adds one new id, changes exactly one non-`mtime` field
`f` on one existing object (even if `mtime` also changed), leaves every other
existing object unchanged, and omits one previously known id, `initialize`
emits exactly one ADDED event, exactly one UPDATED event whose changed-field
list is exactly `[f]`, and exactly one DELETED event, and afterwards the
cache contains exactly the fetched ids. -/
theorem reconcile_add_update_delete (items0 : List (Nat × Obj))
    (fetched : List Obj) (u prevU : Obj) (f : String)
    (hf : (fetched.map Obj.id).Nodup)
    (hu : u ∈ fetched)
    (hprev : assocGet items0 u.id = some prevU)
    (hchg : attrsChanged prevU u = [f])
    (hothers : ∀ o ∈ fetched, o ≠ u → ∀ p, assocGet items0 o.id = some p →
        attrsChanged p o = [])
    (hadd : (fetched.filter
        (fun o => decide (o.id ∉ items0.map Prod.fst))).length = 1)
    (hdel : ((items0.map Prod.fst).filter
        (fun k => decide (k ∉ fetched.map Obj.id))).length = 1) :
    ((reconcile items0 fetched).events.filter
        (fun e => e.kind == EvKind.added)).length = 1
    ∧ (reconcile items0 fetched).events.filter
        (fun e => e.kind == EvKind.updated) = [⟨EvKind.updated, u.id, [f]⟩]
    ∧ ((reconcile items0 fetched).events.filter
        (fun e => e.kind == EvKind.deleted)).length = 1
    ∧ (∀ k, (assocGet (reconcile items0 fetched).items k).isSome ↔
        k ∈ fetched.map Obj.id) := by
  obtain ⟨hev, hitems⟩ := reconcile_spec items0 fetched hf
  have humem : u.id ∈ items0.map Prod.fst :=
    (assocGet_isSome_iff items0 u.id).1 (by simp [hprev])
  refine ⟨?_, ?_, ?_, hitems⟩
  · rw [hev, List.filter_append, filter_kind_map_deleted _ _ (by decide),
      List.append_nil, length_filter_added_flatMap, hadd]
  · rw [hev, List.filter_append, filter_kind_map_deleted _ _ (by decide),
      List.append_nil, filter_flatMap]
    have hg : ∀ x ∈ fetched, x ≠ u →
        (fetchEvents items0 (items0.map Prod.fst) x).filter
          (fun e => e.kind == EvKind.updated) = [] := by
      intro x hx hne
      rw [fetchEvents_filter_updated]
      by_cases hxm : x.id ∈ items0.map Prod.fst
      · rw [if_pos hxm]
        obtain ⟨p, hp⟩ := Option.isSome_iff_exists.1
          ((assocGet_isSome_iff items0 x.id).2 hxm)
        simp [fetchEvents, hxm, hp, hothers x hx hne p hp]
      · rw [if_neg hxm]
    rw [flatMap_eq_single fetched _ u hu (List.Nodup.of_map Obj.id hf) hg,
      fetchEvents_filter_updated, if_pos humem]
    simp [fetchEvents, humem, hprev, hchg]
  · rw [hev, List.filter_append, filter_deleted_map_deleted]
    have hnil : (fetched.flatMap
        (fetchEvents items0 (items0.map Prod.fst))).filter
        (fun e => e.kind == EvKind.deleted) = [] := by
      rw [filter_flatMap]
      exact flatMap_eq_nil_of _ _ (fun x _ => fetchEvents_filter_deleted _ _ _)
    rw [hnil, List.nil_append, List.length_map, hdel]

theorem reconcile_add_update_delete_witness :
    attrsChanged (Obj.mk 1 [("level", 10), ("mtime", 100)])
        (Obj.mk 1 [("level", 20), ("mtime", 200)]) = ["level"]
    ∧ (((reconcile
          [(1, Obj.mk 1 [("level", 10), ("mtime", 100)]),
           (2, Obj.mk 2 [("level", 5), ("mtime", 50)])]
          [Obj.mk 1 [("level", 20), ("mtime", 200)],
           Obj.mk 3 [("level", 7), ("mtime", 70)]]).events.filter
            (fun e => e.kind == EvKind.added)).length = 1
      ∧ (reconcile
          [(1, Obj.mk 1 [("level", 10), ("mtime", 100)]),
           (2, Obj.mk 2 [("level", 5), ("mtime", 50)])]
          [Obj.mk 1 [("level", 20), ("mtime", 200)],
           Obj.mk 3 [("level", 7), ("mtime", 70)]]).events.filter
            (fun e => e.kind == EvKind.updated) =
          [⟨EvKind.updated, (Obj.mk 1 [("level", 20), ("mtime", 200)]).id,
            ["level"]⟩]
      ∧ ((reconcile
          [(1, Obj.mk 1 [("level", 10), ("mtime", 100)]),
           (2, Obj.mk 2 [("level", 5), ("mtime", 50)])]
          [Obj.mk 1 [("level", 20), ("mtime", 200)],
           Obj.mk 3 [("level", 7), ("mtime", 70)]]).events.filter
            (fun e => e.kind == EvKind.deleted)).length = 1
      ∧ (∀ k, (assocGet (reconcile
          [(1, Obj.mk 1 [("level", 10), ("mtime", 100)]),
           (2, Obj.mk 2 [("level", 5), ("mtime", 50)])]
          [Obj.mk 1 [("level", 20), ("mtime", 200)],
           Obj.mk 3 [("level", 7), ("mtime", 70)]]).items k).isSome ↔
          k ∈ [Obj.mk 1 [("level", 20), ("mtime", 200)],
               Obj.mk 3 [("level", 7), ("mtime", 70)]].map Obj.id)) := by
  refine ⟨by decide,
    reconcile_add_update_delete
      [(1, Obj.mk 1 [("level", 10), ("mtime", 100)]),
       (2, Obj.mk 2 [("level", 5), ("mtime", 50)])]
      [Obj.mk 1 [("level", 20), ("mtime", 200)],
       Obj.mk 3 [("level", 7), ("mtime", 70)]]
      (Obj.mk 1 [("level", 20), ("mtime", 200)])
      (Obj.mk 1 [("level", 10), ("mtime", 100)])
      "level" (by decide) (by decide) (by decide) (by decide) ?_ (by decide)
      (by decide)⟩
  intro o ho hne p hp
  fin_cases ho
  · exact absurd rfl hne
  · simp [assocGet] at hp

/-- C10: for every input string of digits and dots with at least one digit,
`fixed_to_decimal` returns exactly the integer formed by deleting every dot
character, divided by 1000; consequently an input with fewer than three
digits after the point, such as "12.5", decodes to 0.125 rather than its
face value 12.5. -/
theorem fixed_to_decimal_drops_point (value : String)
    (hchars : ∀ c ∈ value.data, c.isDigit ∨ c = '.')
    (hdigit : ∃ c ∈ value.data, c.isDigit) :
    fixed_to_decimal value =
      some ((digitsToNat (value.data.filter (fun c => decide (c ≠ '.'))) : ℚ)
        / 1000) := by
  have hne : value.data.filter (fun c => decide (c ≠ '.')) ≠ [] := by
    obtain ⟨c, hc, hcd⟩ := hdigit
    intro hcontra
    have hmem : c ∈ value.data.filter (fun c => decide (c ≠ '.')) := by
      refine List.mem_filter.2 ⟨hc, ?_⟩
      simp only [decide_eq_true_eq]
      intro heq
      rw [heq] at hcd
      exact absurd hcd (by decide)
    rw [hcontra] at hmem
    cases hmem
  have hall : ∀ c ∈ value.data.filter (fun c => decide (c ≠ '.')), c.isDigit := by
    intro c hc
    rcases List.mem_filter.1 hc with ⟨hmem, hne2⟩
    rcases hchars c hmem with h | h
    · exact h
    · simp [h] at hne2
  rw [fixed_to_decimal, pyToNatL_digits _ hne hall]
  rfl

theorem fixed_to_decimal_drops_point_witness :
    (∀ c ∈ "12.5".data, c.isDigit ∨ c = '.')
    ∧ fixed_to_decimal "12.5" = some ((125 : ℚ) / 1000) := by
  refine ⟨by decide, ?_⟩
  have h := fixed_to_decimal_drops_point "12.5" (by decide)
    ⟨'1', by decide, by decide⟩
  rw [h]
  have he : digitsToNat ("12.5".data.filter (fun c => decide (c ≠ '.'))) =
      125 := by decide
  rw [he]
  norm_num

end AV
